import Mathlib

/-!
# Verification of the PRD rating normalizer and report aggregator

Shallow embedding of `src/prd_score_uploader.py`: the rating-to-score
normalization (`convert_to_score`) and the data decisions of the report
generator (`generate_pdf`): artifact ordering, low-score diagnostics,
average rows, and the numeric-extraction helper
(`_avg_numeric_from_display`).

Numbers are modelled as exact rationals (`ℚ`); Python `round(x, 2)` is
modelled as round-half-to-even on the exact value.  Python cell values
(which may be non-strings) are modelled by `CellVal`; operations that can
raise (`val.title()` on a non-string) live in `Except`.
-/

namespace PrdRating

/-- The six weighted rating parameters, in the iteration order of the
`weights` dict of the source (Python dicts iterate in insertion order). -/
inductive Param : Type
  | scope
  | designReady
  | prdHandover
  | reqChanges
  | coverage
  | techDepth
  deriving DecidableEq

open Param

/-- Canonical configuration order: the keys of `weights`, in order. -/
def paramList : List Param :=
  [scope, designReady, prdHandover, reqChanges, coverage, techDepth]

/-- Position of a parameter in the canonical order (used to express
stability of Python's `list.sort`). -/
def canonIdx : Param → ℕ
  | scope => 0
  | designReady => 1
  | prdHandover => 2
  | reqChanges => 3
  | coverage => 4
  | techDepth => 5

/-- The `score_map` table: textual category → numeric score, per parameter. -/
def scoreMap : Param → List (String × ℚ)
  | scope => [("not covered", 0), ("partially covered", 1/2), ("fully covered", 1)]
  | designReady => [("not covered", 0), ("partially covered", 1/2), ("fully covered", 3/2)]
  | prdHandover => [("no", 0), ("yes", 3/2)]
  | reqChanges => [("changed n time", 0), ("changed 1 time", 1/2), ("no changes", 2)]
  | coverage => [("not covered", 0), ("partially covered", 1/2), ("fully covered", 2)]
  | techDepth => [("not covered", 0), ("partially covered", 1/2), ("fully covered", 2)]

/-- The `weights` dict: parameter weights. -/
def weights : Param → ℚ
  | scope => 1
  | designReady => 3/2
  | prdHandover => 3/2
  | reqChanges => 2
  | coverage => 2
  | techDepth => 2

/-- The `param_max` dict, `max(score_map[k].values())` per parameter.  Every category
score is nonnegative, so folding `max` with base `0` computes the same
maximum as Python's `max` over the (non-empty) dict values. -/
def paramMax (p : Param) : ℚ :=
  ((scoreMap p).map Prod.snd).foldr max 0

/-- Python `dict.get(key, 0)` on a category→score table. -/
def lookupD (l : List (String × ℚ)) (s : String) : ℚ :=
  match l.find? (fun kv => kv.1 == s) with
  | some kv => kv.2
  | none => 0

/-- A Python cell value as it can reach `convert_to_score`: either a
string or a non-string scalar (modelled by an integer, e.g. a numeric
spreadsheet cell).  Only `str` has a `.title()` method. -/
inductive CellVal : Type
  | pyStr (s : String)
  | pyInt (n : Int)
  deriving DecidableEq

/-- Python `str(val)`. -/
def pyStrOf : CellVal → String
  | .pyStr s => s
  | .pyInt n => toString n

/-- Whitespace for `str.strip()` (the ASCII whitespace characters;
Python also strips some Unicode space characters, which never occur in
the configured categories). -/
def isSpaceChar (c : Char) : Bool :=
  c = ' ' || c = '\t' || c = '\n' || c = '\r'

/-- Python `str.strip()`: drop whitespace from both ends. -/
def pyStrip (s : String) : String :=
  ⟨((s.data.dropWhile isSpaceChar).reverse.dropWhile isSpaceChar).reverse⟩

/-- Python `str.lower()` (ASCII case mapping suffices for the configured
categories). -/
def pyLower (s : String) : String :=
  ⟨s.data.map Char.toLower⟩

/-- Helper for `str.title()`: the boolean argument records whether the
previous character was alphabetic. -/
def titleAux : Bool → List Char → List Char
  | _, [] => []
  | prevAlpha, c :: rest =>
    let c' := if c.isAlpha then (if prevAlpha then c.toLower else c.toUpper) else c
    c' :: titleAux c.isAlpha rest

/-- Python `str.title()`: uppercase each letter that follows a
non-letter, lowercase the others. -/
def pyTitleStr (s : String) : String :=
  ⟨titleAux false s.data⟩

/-- Python `val.title()`: raises `AttributeError` when `val` is not a
string. -/
def pyTitle : CellVal → Except Unit String
  | .pyStr s => .ok (pyTitleStr s)
  | .pyInt _ => .error ()

/-- Python f-string rendering of a mapped score.  The configured scores
are integers or half-integers: integers print without a decimal point
(they are `int` literals in `score_map`), halves print as `⟨n⟩.5`. -/
def qRepr (q : ℚ) : String :=
  if q.den = 1 then toString q.num else toString (q.num / q.den) ++ ".5"

/-- The display value `f"{val.title()} ({mapped})"`. -/
def displayOf (title : String) (mapped : ℚ) : String :=
  title ++ " (" ++ qRepr mapped ++ ")"

/-- A row as `convert_to_score` receives it: a partial mapping from
parameter names to cell values; `row.get(param_key, '')` yields the
empty string for an absent key. -/
def valOf (row : Param → Option CellVal) (p : Param) : CellVal :=
  (row p).getD (.pyStr "")

/-- The normalized lookup key `str(val).strip().lower()`. -/
def normOf (row : Param → Option CellVal) (p : Param) : String :=
  pyLower (pyStrip (pyStrOf (valOf row p)))

/-- The mapped numeric value `score_map.get(param_key, {}).get(val_normalized, 0)`. -/
def mappedOf (row : Param → Option CellVal) (p : Param) : ℚ :=
  lookupD (scoreMap p) (normOf row p)

/-- The loop body of `convert_to_score`, generalized over the list of
parameters it iterates (the source iterates `weights`' keys, i.e.
`paramList`).  Returns the per-parameter score map (as an association
list in iteration order) together with the `total_score` and
`total_weight` accumulators.  A non-string value hit by `.title()`
aborts with the exception, as in Python. -/
def convertCore (ps : List Param) (row : Param → Option CellVal) :
    Except Unit (List (Param × String) × ℚ × ℚ) :=
  match ps with
  | [] => .ok ([], 0, 0)
  | p :: rest =>
    if normOf row p = "not applicable" then
      match convertCore rest row with
      | .error e => .error e
      | .ok (s, ts, tw) => .ok ((p, "N/A") :: s, ts, tw)
    else
      match pyTitle (valOf row p) with
      | .error e => .error e
      | .ok t =>
        match convertCore rest row with
        | .error e => .error e
        | .ok (s, ts, tw) =>
          .ok ((p, displayOf t (mappedOf row p)) :: s, mappedOf row p + ts, weights p + tw)

/-- Round half to even to the nearest integer. -/
def roundHalfEven (y : ℚ) : ℤ :=
  if y - (⌊y⌋ : ℚ) < 1/2 then ⌊y⌋
  else if 1/2 < y - (⌊y⌋ : ℚ) then ⌊y⌋ + 1
  else if ⌊y⌋ % 2 = 0 then ⌊y⌋ else ⌊y⌋ + 1

/-- Python `round(x, 2)` on the exact rational value: round half to
even at the second decimal. -/
def round2 (x : ℚ) : ℚ :=
  (roundHalfEven (x * 100) : ℚ) / 100

/-- The source's `round(total_score * 10 / total_weight, 2) if total_weight else 0`. -/
def normalizedTotal (ts tw : ℚ) : ℚ :=
  if tw ≠ 0 then round2 (ts * 10 / tw) else 0

/-- Function `convert_to_score`, generalized over the iterated parameter list. -/
def convertOver (ps : List Param) (row : Param → Option CellVal) :
    Except Unit (List (Param × String) × ℚ) :=
  match convertCore ps row with
  | .error e => .error e
  | .ok (s, ts, tw) => .ok (s, normalizedTotal ts tw)

/-- The score normalizer `convert_to_score(row)` of the source. -/
def convert_to_score (row : Param → Option CellVal) :
    Except Unit (List (Param × String) × ℚ) :=
  convertOver paramList row

/-- The `get_color_by_score` function: the three-tier severity classification
(`>= 8` light green, `6 <= _ < 8` orange, otherwise red). -/
def getColorByScore (score : ℚ) : ℕ × ℕ × ℕ :=
  if 8 ≤ score then (144, 238, 144)
  else if 6 ≤ score then (255, 165, 0)
  else (255, 99, 71)

/-- Pandas `Series.mean()`: `none` models NaN (the mean of an empty
series). -/
def meanQ (l : List ℚ) : Option ℚ :=
  match l with
  | [] => none
  | _ => some (l.sum / l.length)

/-- One row of `result_df` as `generate_pdf` consumes it: artifact
identifier, rater role, the display cell of each parameter (a string
such as `"Fully Covered (2)"` or `"N/A"`), the normalized Total Score,
and the comment. -/
structure ScoredRow : Type where
  prdName : String
  role : String
  cells : Param → String
  totalScore : ℚ
  comments : String

/-- The group `data[data["PRD Name"] == prd_name]`. -/
def groupRows (data : List ScoredRow) (name : String) : List ScoredRow :=
  data.filter (fun r => r.prdName = name)

/-- The `Total Score` column of one artifact group. -/
def groupScores (data : List ScoredRow) (name : String) : List ℚ :=
  (groupRows data name).map (fun r => r.totalScore)

/-- Group-average Total Score with NaN defaulted to `0` (only used as a
sort key; every group key taken from the data has a non-empty group, so
the default is never exercised there). -/
def meanD (data : List ScoredRow) (name : String) : ℚ :=
  (meanQ (groupScores data name)).getD 0

/-- First-occurrence deduplication of the artifact identifiers (the set
of `groupby` keys). -/
def firstDedup : List String → List String
  | [] => []
  | a :: as => a :: (firstDedup as).filter (fun b => b ≠ a)

/-- Sorting a list by a numeric key `f` with a Python *stable* sort is
sorting by the lexicographic order on `(f a, g a)` where `g` is the
original position (injective on the sorted list).  All our sorts are
expressed this way. -/
def lexRel {α β : Type} [LinearOrder β] (f : α → ℚ) (g : α → β) (a b : α) : Prop :=
  f a < f b ∨ (f a = f b ∧ g a ≤ g b)

instance lexRel.instDecidable {α β : Type} [LinearOrder β] (f : α → ℚ) (g : α → β) :
    DecidableRel (lexRel f g) :=
  fun _ _ => inferInstanceAs (Decidable (_ ∨ _))

instance lexRel.instIsTotal {α β : Type} [LinearOrder β] (f : α → ℚ) (g : α → β) :
    IsTotal α (lexRel f g) := by
  constructor
  intro a b
  rcases lt_trichotomy (f a) (f b) with h | h | h
  · exact Or.inl (Or.inl h)
  · rcases le_total (g a) (g b) with h2 | h2
    · exact Or.inl (Or.inr ⟨h, h2⟩)
    · exact Or.inr (Or.inr ⟨h.symm, h2⟩)
  · exact Or.inr (Or.inl h)

instance lexRel.instIsTrans {α β : Type} [LinearOrder β] (f : α → ℚ) (g : α → β) :
    IsTrans α (lexRel f g) := by
  constructor
  rintro a b c (hab | ⟨hab, hab2⟩) (hbc | ⟨hbc, hbc2⟩)
  · exact Or.inl (hab.trans hbc)
  · exact Or.inl (lt_of_lt_of_le hab hbc.le)
  · exact Or.inl (lt_of_le_of_lt hab.le hbc)
  · exact Or.inr ⟨hab.trans hbc, hab2.trans hbc2⟩

/-- The sorted artifact list of `generate_pdf`:
`data.groupby("PRD Name")["Total Score"].mean().sort_values().index`.
`groupby` yields the distinct names sorted alphabetically; sorting that
series by value then orders names by ascending group mean.  (The
source's `sort_values` uses an unstable quicksort, so the order among
ties is unspecified there; the model breaks ties by name.  No claim
depends on the tie order.) -/
def sortedPrds (data : List ScoredRow) : List String :=
  List.insertionSort (lexRel (meanD data) id)
    (List.insertionSort (fun a b : String => a ≤ b)
      (firstDedup (data.map (fun r => r.prdName))))

/-- A character matched by the regex class `[\d.]`. -/
def isNumChar (c : Char) : Bool :=
  c.isDigit || c = '.'

/-- Pandas `Series.str.extract(r'([\d.]+)')` on one cell: the first maximal run
of digits/dots, or `none` (NaN) when there is none. -/
def firstRun : List Char → Option (List Char)
  | [] => none
  | c :: rest =>
    if isNumChar c then some (c :: rest.takeWhile isNumChar) else firstRun rest

/-- Numeric value of a digit string (chars are all digits). -/
def digitsVal (l : List Char) : ℕ :=
  l.foldl (fun acc c => acc * 10 + (c.toNat - 48)) 0

/-- Pandas `pd.to_numeric(_, errors='coerce')` on a string made of digits and
dots: an optional integer part, at most one dot, an optional fractional
part; `"."` alone and several dots coerce to NaN. -/
def toNumeric (s : List Char) : Option ℚ :=
  match (String.mk s).splitOn "." with
  | [a] => if a.isEmpty then none else some (digitsVal a.data)
  | [a, b] =>
    if a.isEmpty && b.isEmpty then none
    else some ((digitsVal a.data : ℚ) + (digitsVal b.data : ℚ) / (10 : ℚ) ^ b.length)
  | _ => none

/-- The numeric value `_avg_numeric_from_display` extracts from one
display cell: first `[\d.]+` run, then numeric coercion. -/
def extractNum (s : String) : Option ℚ :=
  match firstRun s.data with
  | none => none
  | some run => toNumeric run

/-- The `_avg_numeric_from_display(series)` helper: mean of the extracted numbers,
NaN entries dropped; NaN (`none`) when no cell yields a number. -/
def extractMean (cells : List String) : Option ℚ :=
  meanQ (cells.filterMap extractNum)

/-- The relative-impact ratio of `_lowest_params_by_impact`:
`avg_val / max_possible` where a NaN column average falls back to `0.0`
and `max_possible = param_max.get(p, 1) or 1`. -/
def ratioOf (group : List ScoredRow) (p : Param) : ℚ :=
  ((extractMean (group.map (fun r => r.cells p))).getD 0) /
    (if paramMax p = 0 then 1 else paramMax p)

/-- The `_lowest_params_by_impact(group, top_k=3)` helper: Python's stable
`scores.sort(key=lambda x: x[1])` over the canonical parameter list,
then the first three parameters. -/
def lowestParams (group : List ScoredRow) : List Param :=
  (List.insertionSort (lexRel (ratioOf group) canonIdx) paramList).take 3

/-- The low-score diagnostic note of one artifact section: emitted iff
`avg_score < 8` (a NaN average compares false, as in Python), carrying
the parameters the note names. -/
def noteOf (data : List ScoredRow) (name : String) : Option (List Param) :=
  match meanQ (groupScores data name) with
  | none => none
  | some q => if q < 8 then some (lowestParams (groupRows data name)) else none

/-- One cell of the per-group average row, for a parameter column:
blank (`none`) when `_avg_numeric_from_display` yields NaN. -/
def avgCellParam (group : List ScoredRow) (p : Param) : Option ℚ :=
  extractMean (group.map (fun r => r.cells p))

/-- The `overall_avg = data['Total Score'].mean()` value (NaN on an empty
dataset). -/
def overallAvg (data : List ScoredRow) : Option ℚ :=
  meanQ (data.map (fun r => r.totalScore))

/-- Removing the first occurrence of a parameter from an iteration
list: the computation "with that parameter absent" from the configured
parameter set. -/
def removeP (p : Param) : List Param → List Param
  | [] => []
  | q :: rest => if q = p then rest else q :: removeP p rest

/-- The Total Score obtained by running the normalizer loop over an
arbitrary parameter list (projection of `convertOver` to the score). -/
def totalScoreOver (ps : List Param) (row : Param → Option CellVal) : Except Unit ℚ :=
  match convertCore ps row with
  | .error e => .error e
  | .ok (_, ts, tw) => .ok (normalizedTotal ts tw)

/-- The `total_score` and `total_weight` accumulators of the normalizer
loop run over an arbitrary parameter list (projection of
`convertCore`). -/
def coreTotals (ps : List Param) (row : Param → Option CellVal) : Except Unit (ℚ × ℚ) :=
  match convertCore ps row with
  | .error e => .error e
  | .ok (_, ts, tw) => .ok (ts, tw)

/-- Whether a cell is absent or a string (`pandas` feeds `convert_to_score`
only such cells after `astype(str)` preprocessing). -/
def isStrCell : Option CellVal → Bool
  | none => true
  | some (.pyStr _) => true
  | some (.pyInt _) => false

/-- Spec-side definition (for refinement comparison), following the
spec's words: the group's mean *numeric score* for a parameter, i.e.
the mean of the mapped category scores of the raters' raw answers,
ignoring "not applicable" answers. -/
def specMeanScore (inputs : List (Param → Option CellVal)) (p : Param) : Option ℚ :=
  meanQ ((inputs.filter (fun row => normOf row p != "not applicable")).map
    (fun row => mappedOf row p))

/-- Spec-side definition: `relative_score =
group_average_raw_score(parameter) / parameter.max_possible_score`. -/
def specRelScore (inputs : List (Param → Option CellVal)) (p : Param) : ℚ :=
  (specMeanScore inputs p).getD 0 / paramMax p

/-- Spec-side definition: the `k = 3` parameters with smallest
relative_score, ascending, ties broken by canonical parameter order. -/
def specLowestParams (inputs : List (Param → Option CellVal)) : List Param :=
  (List.insertionSort (lexRel (specRelScore inputs) canonIdx) paramList).take 3

end PrdRating

namespace PrdRating

/-! ### Concrete rows and datasets used by examples and counterexamples -/

/-- The concrete scenario row of the spec: Scope "fully covered",
Design Ready "not covered", PRD Handover "not applicable", remaining
parameters unanswered. -/
def rowC3 : Param → Option CellVal
  | .scope => some (.pyStr "fully covered")
  | .designReady => some (.pyStr "not covered")
  | .prdHandover => some (.pyStr "not applicable")
  | _ => some (.pyStr "")

/-- Same submission as `rowC3` except that the "not applicable" answer
is replaced by an *absent* cell. -/
def rowC3Absent : Param → Option CellVal
  | .scope => some (.pyStr "fully covered")
  | .designReady => some (.pyStr "not covered")
  | .prdHandover => none
  | _ => some (.pyStr "")

/-- A row holding a non-string (numeric) cell for Scope. -/
def rowNonStr : Param → Option CellVal
  | .scope => some (.pyInt 5)
  | _ => none

/-- A submission answering every parameter, with "changed 1 time" for
Req. changes (a category label that itself contains a digit). -/
def rowX : Param → Option CellVal
  | .scope => some (.pyStr "fully covered")
  | .designReady => some (.pyStr "fully covered")
  | .prdHandover => some (.pyStr "yes")
  | .reqChanges => some (.pyStr "changed 1 time")
  | .coverage => some (.pyStr "partially covered")
  | .techDepth => some (.pyStr "fully covered")

/-- The scored row `convert_to_score` produces from `rowX` (artifact
"X"). -/
def scoredX : ScoredRow where
  prdName := "X"
  role := "PM"
  cells := fun p =>
    match p with
    | .scope => "Fully Covered (1)"
    | .designReady => "Fully Covered (1.5)"
    | .prdHandover => "Yes (1.5)"
    | .reqChanges => "Changed 1 Time (0.5)"
    | .coverage => "Partially Covered (0.5)"
    | .techDepth => "Fully Covered (2)"
  totalScore := 7
  comments := ""

/-- A submission whose only numeric answer is "changed 1 time"; every
other parameter is "not applicable". -/
def rowY : Param → Option CellVal
  | .reqChanges => some (.pyStr "changed 1 time")
  | _ => some (.pyStr "not applicable")

/-- The scored row `convert_to_score` produces from `rowY` (artifact
"Y"). -/
def scoredY : ScoredRow where
  prdName := "Y"
  role := "PM"
  cells := fun p =>
    match p with
    | .reqChanges => "Changed 1 Time (0.5)"
    | _ => "N/A"
  totalScore := 5/2
  comments := ""

/-- A submission marking the first four parameters "not applicable" and
answering the last two. -/
def rowZ : Param → Option CellVal
  | .coverage => some (.pyStr "fully covered")
  | .techDepth => some (.pyStr "partially covered")
  | _ => some (.pyStr "not applicable")

/-- The scored row `convert_to_score` produces from `rowZ` (artifact
"Z"). -/
def scoredZ : ScoredRow where
  prdName := "Z"
  role := "PM"
  cells := fun p =>
    match p with
    | .coverage => "Fully Covered (2)"
    | .techDepth => "Partially Covered (0.5)"
    | _ => "N/A"
  totalScore := 25/4
  comments := ""

/-- A scored row whose parameter cells are all "N/A" (used only for its
artifact name and Total Score). -/
def mkTotalRow (name : String) (total : ℚ) : ScoredRow where
  prdName := name
  role := "r"
  cells := fun _ => "N/A"
  totalScore := total
  comments := ""

/-- Three artifacts with group averages 9.0, 4.0 and 7.0. -/
def dataABC : List ScoredRow :=
  [mkTotalRow "A" 9, mkTotalRow "B" 4, mkTotalRow "C" 7]

/-- A five-rater group for one artifact "P": Coverage averages to
relative score 0.2 and Scope to 0.5, the other parameters to 1. -/
def rowP (cov : String) (total : ℚ) : ScoredRow where
  prdName := "P"
  role := "r"
  cells := fun p =>
    match p with
    | .scope => "Partially Covered (0.5)"
    | .designReady => "Fully Covered (1.5)"
    | .prdHandover => "Yes (1.5)"
    | .reqChanges => "No Changes (2)"
    | .coverage => cov
    | .techDepth => "Fully Covered (2)"
  totalScore := total
  comments := ""

/-- The artifact-"P" dataset: four raters at Total Score 8 and one at
7.5; the group average is 7.9. -/
def dataP : List ScoredRow :=
  [rowP "Partially Covered (0.5)" 8, rowP "Partially Covered (0.5)" 8,
   rowP "Partially Covered (0.5)" 8, rowP "Partially Covered (0.5)" 8,
   rowP "Not Covered (0)" (15/2)]

end PrdRating

deriving instance DecidableEq for Except

namespace PrdRating

/-! ### Lemmas about the score normalizer -/

lemma weights_pos (p : Param) : 0 < weights p := by
  cases p <;> norm_num [weights]

lemma lookupD_zero_or_mem (l : List (String × ℚ)) (s : String) :
    lookupD l s = 0 ∨ lookupD l s ∈ l.map Prod.snd := by
  unfold lookupD
  cases h : l.find? (fun kv => kv.1 == s) with
  | none => exact Or.inl rfl
  | some kv => exact Or.inr (List.mem_map_of_mem _ (List.mem_of_find?_eq_some h))

lemma scoreMap_val_bounds (p : Param) : ∀ v ∈ (scoreMap p).map Prod.snd, 0 ≤ v ∧ v ≤ weights p := by
  cases p <;> with_unfolding_all decide

lemma mapped_bounds (p : Param) (s : String) :
    0 ≤ lookupD (scoreMap p) s ∧ lookupD (scoreMap p) s ≤ weights p := by
  rcases lookupD_zero_or_mem (scoreMap p) s with h | h
  · rw [h]
    exact ⟨le_refl 0, (weights_pos p).le⟩
  · exact scoreMap_val_bounds p _ h

lemma convertCore_ok_bounds :
    ∀ (ps : List Param) (row : Param → Option CellVal) (s : List (Param × String)) (ts tw : ℚ),
      convertCore ps row = .ok (s, ts, tw) → 0 ≤ ts ∧ ts ≤ tw := by
  intro ps
  induction ps with
  | nil =>
    intro row s ts tw h
    simp only [convertCore, Except.ok.injEq, Prod.mk.injEq] at h
    obtain ⟨-, h2, h3⟩ := h
    rw [← h2, ← h3]
    norm_num
  | cons p rest ih =>
    intro row s ts tw h
    simp only [convertCore] at h
    by_cases hna : normOf row p = "not applicable"
    · rw [if_pos hna] at h
      cases hrec : convertCore rest row with
      | error e =>
        rw [hrec] at h
        exact absurd h (by simp)
      | ok out =>
        obtain ⟨s2, ts2, tw2⟩ := out
        rw [hrec] at h
        simp only [Except.ok.injEq, Prod.mk.injEq] at h
        obtain ⟨-, h2, h3⟩ := h
        rw [← h2, ← h3]
        exact ih row s2 ts2 tw2 hrec
    · rw [if_neg hna] at h
      cases ht : pyTitle (valOf row p) with
      | error e =>
        rw [ht] at h
        exact absurd h (by simp)
      | ok t =>
        rw [ht] at h
        cases hrec : convertCore rest row with
        | error e =>
          rw [hrec] at h
          exact absurd h (by simp)
        | ok out =>
          obtain ⟨s2, ts2, tw2⟩ := out
          rw [hrec] at h
          simp only [Except.ok.injEq, Prod.mk.injEq] at h
          obtain ⟨-, h2, h3⟩ := h
          obtain ⟨hb1, hb2⟩ := ih row s2 ts2 tw2 hrec
          obtain ⟨hm1, hm2⟩ := mapped_bounds p (normOf row p)
          rw [← h2, ← h3]
          constructor
          · exact add_nonneg hm1 hb1
          · exact add_le_add hm2 hb2

lemma roundHalfEven_bounds {y : ℚ} (h0 : 0 ≤ y) (h : y ≤ 1000) :
    0 ≤ roundHalfEven y ∧ roundHalfEven y ≤ 1000 := by
  unfold roundHalfEven
  have hf0 : 0 ≤ ⌊y⌋ := Int.floor_nonneg.mpr h0
  have hfle : (⌊y⌋ : ℚ) ≤ y := Int.floor_le y
  have hf1000 : ⌊y⌋ ≤ 1000 := by
    have hq : (⌊y⌋ : ℚ) ≤ 1000 := le_trans hfle h
    exact_mod_cast hq
  have hup : ¬(y - (⌊y⌋ : ℚ) < 1/2) → ⌊y⌋ ≤ 999 := by
    intro h1
    have hr : (1:ℚ)/2 ≤ y - (⌊y⌋ : ℚ) := not_lt.mp h1
    have h9 : (⌊y⌋ : ℚ) < 1000 := by linarith
    have h9i : ⌊y⌋ < 1000 := by exact_mod_cast h9
    omega
  split_ifs with h1 h2 h3
  · exact ⟨hf0, hf1000⟩
  · have := hup h1
    constructor
    · omega
    · omega
  · exact ⟨hf0, hf1000⟩
  · have := hup h1
    constructor
    · omega
    · omega

lemma round2_bounds {x : ℚ} (h0 : 0 ≤ x) (h10 : x ≤ 10) :
    0 ≤ round2 x ∧ round2 x ≤ 10 := by
  unfold round2
  have hy0 : 0 ≤ x * 100 := by positivity
  have hy1000 : x * 100 ≤ 1000 := by nlinarith
  obtain ⟨ha, hb⟩ := roundHalfEven_bounds hy0 hy1000
  constructor
  · apply div_nonneg _ (by norm_num : (0:ℚ) ≤ 100)
    exact_mod_cast ha
  · rw [div_le_iff₀ (by norm_num : (0:ℚ) < 100)]
    have hc : ((roundHalfEven (x * 100) : ℤ) : ℚ) ≤ 1000 := by exact_mod_cast hb
    linarith

lemma normalizedTotal_bounds {ts tw : ℚ} (h0 : 0 ≤ ts) (hle : ts ≤ tw) :
    0 ≤ normalizedTotal ts tw ∧ normalizedTotal ts tw ≤ 10 := by
  unfold normalizedTotal
  by_cases h : tw ≠ 0
  · rw [if_pos h]
    have htw : 0 < tw := lt_of_le_of_ne (le_trans h0 hle) (Ne.symm h)
    have hx0 : 0 ≤ ts * 10 / tw := by positivity
    have hx10 : ts * 10 / tw ≤ 10 := by
      rw [div_le_iff₀ htw]
      nlinarith
    exact round2_bounds hx0 hx10
  · rw [if_neg h]
    norm_num

lemma convertCore_allNA :
    ∀ (ps : List Param) (row : Param → Option CellVal),
      (∀ p ∈ ps, normOf row p = "not applicable") →
      ∃ s, convertCore ps row = .ok (s, 0, 0) := by
  intro ps
  induction ps with
  | nil => exact fun row _ => ⟨[], rfl⟩
  | cons p rest ih =>
    intro row h
    obtain ⟨s2, hs2⟩ := ih row (fun q hq => h q (List.mem_cons_of_mem _ hq))
    refine ⟨(p, "N/A") :: s2, ?_⟩
    simp only [convertCore, if_pos (h p (List.mem_cons_self _ _)), hs2]

end PrdRating

namespace PrdRating

/-! ### More normalizer lemmas: totals, "not applicable" handling -/

lemma coreTotals_cons (q : Param) (rest : List Param) (row : Param → Option CellVal) :
    coreTotals (q :: rest) row =
      if normOf row q = "not applicable" then coreTotals rest row
      else
        match pyTitle (valOf row q) with
        | .error e => .error e
        | .ok _ =>
          match coreTotals rest row with
          | .error e => .error e
          | .ok (ts, tw) => .ok (mappedOf row q + ts, weights q + tw) := by
  by_cases hna : normOf row q = "not applicable"
  · rw [if_pos hna]
    unfold coreTotals
    simp only [convertCore, if_pos hna]
    cases convertCore rest row with
    | error e => rfl
    | ok out =>
      obtain ⟨s, ts, tw⟩ := out
      rfl
  · rw [if_neg hna]
    unfold coreTotals
    simp only [convertCore, if_neg hna]
    cases pyTitle (valOf row q) with
    | error e => rfl
    | ok t =>
      cases convertCore rest row with
      | error e => rfl
      | ok out =>
        obtain ⟨s, ts, tw⟩ := out
        rfl

lemma coreTotals_removeP :
    ∀ (ps : List Param) (row : Param → Option CellVal) (p : Param),
      p ∈ ps → normOf row p = "not applicable" →
      coreTotals ps row = coreTotals (removeP p ps) row := by
  intro ps
  induction ps with
  | nil =>
    intro row p h
    exact absurd h (List.not_mem_nil p)
  | cons q rest ih =>
    intro row p hmem hna
    by_cases hqp : q = p
    · subst hqp
      unfold removeP
      rw [if_pos rfl, coreTotals_cons, if_pos hna]
    · have hmem2 : p ∈ rest := by
        rcases List.mem_cons.mp hmem with h | h
        · exact absurd h.symm hqp
        · exact h
      unfold removeP
      rw [if_neg hqp, coreTotals_cons, coreTotals_cons, ih row p hmem2 hna]

lemma totalScoreOver_eq_coreTotals (ps : List Param) (row : Param → Option CellVal) :
    totalScoreOver ps row =
      match coreTotals ps row with
      | .error e => .error e
      | .ok (ts, tw) => .ok (normalizedTotal ts tw) := by
  unfold totalScoreOver coreTotals
  cases convertCore ps row with
  | error e => rfl
  | ok out =>
    obtain ⟨s, ts, tw⟩ := out
    rfl

lemma na_mem_scores :
    ∀ (ps : List Param) (row : Param → Option CellVal) (p : Param)
      (s : List (Param × String)) (ts tw : ℚ),
      convertCore ps row = .ok (s, ts, tw) → p ∈ ps →
      normOf row p = "not applicable" → (p, "N/A") ∈ s := by
  intro ps
  induction ps with
  | nil =>
    intro row p s ts tw _ hmem
    exact absurd hmem (List.not_mem_nil p)
  | cons q rest ih =>
    intro row p s ts tw h hmem hna
    simp only [convertCore] at h
    by_cases hqp : q = p
    · subst hqp
      rw [if_pos hna] at h
      cases hrec : convertCore rest row with
      | error e =>
        rw [hrec] at h
        exact absurd h (by simp)
      | ok out =>
        obtain ⟨s2, ts2, tw2⟩ := out
        rw [hrec] at h
        simp only [Except.ok.injEq, Prod.mk.injEq] at h
        obtain ⟨h1, -, -⟩ := h
        rw [← h1]
        exact List.mem_cons_self _ _
    · have hmem2 : p ∈ rest := by
        rcases List.mem_cons.mp hmem with h2 | h2
        · exact absurd h2.symm hqp
        · exact h2
      by_cases hqna : normOf row q = "not applicable"
      · rw [if_pos hqna] at h
        cases hrec : convertCore rest row with
        | error e =>
          rw [hrec] at h
          exact absurd h (by simp)
        | ok out =>
          obtain ⟨s2, ts2, tw2⟩ := out
          rw [hrec] at h
          simp only [Except.ok.injEq, Prod.mk.injEq] at h
          obtain ⟨h1, -, -⟩ := h
          rw [← h1]
          exact List.mem_cons_of_mem _ (ih row p s2 ts2 tw2 hrec hmem2 hna)
      · rw [if_neg hqna] at h
        cases ht : pyTitle (valOf row q) with
        | error e =>
          rw [ht] at h
          exact absurd h (by simp)
        | ok t =>
          rw [ht] at h
          cases hrec : convertCore rest row with
          | error e =>
            rw [hrec] at h
            exact absurd h (by simp)
          | ok out =>
            obtain ⟨s2, ts2, tw2⟩ := out
            rw [hrec] at h
            simp only [Except.ok.injEq, Prod.mk.injEq] at h
            obtain ⟨h1, -, -⟩ := h
            rw [← h1]
            exact List.mem_cons_of_mem _ (ih row p s2 ts2 tw2 hrec hmem2 hna)

lemma convertCore_str_ok :
    ∀ (ps : List Param) (row : Param → Option CellVal),
      (∀ p ∈ ps, isStrCell (row p) = true) →
      ∃ out, convertCore ps row = .ok out := by
  intro ps
  induction ps with
  | nil => exact fun row _ => ⟨([], 0, 0), rfl⟩
  | cons p rest ih =>
    intro row h
    obtain ⟨⟨s2, ts2, tw2⟩, hs2⟩ := ih row (fun q hq => h q (List.mem_cons_of_mem _ hq))
    by_cases hna : normOf row p = "not applicable"
    · refine ⟨((p, "N/A") :: s2, ts2, tw2), ?_⟩
      simp only [convertCore, if_pos hna, hs2]
    · have hstr : ∃ t, pyTitle (valOf row p) = .ok t := by
        have hp := h p (List.mem_cons_self _ _)
        unfold valOf
        cases hr : row p with
        | none => exact ⟨pyTitleStr "", rfl⟩
        | some v =>
          cases v with
          | pyStr s => exact ⟨pyTitleStr s, rfl⟩
          | pyInt n =>
            rw [hr] at hp
            exact absurd hp (by simp [isStrCell])
      obtain ⟨t, ht⟩ := hstr
      refine ⟨((p, displayOf t (mappedOf row p)) :: s2, mappedOf row p + ts2, weights p + tw2), ?_⟩
      simp only [convertCore, if_neg hna, ht, hs2]

end PrdRating

namespace PrdRating

/-! ### Claims C1, C2, C3, C9: the score normalizer -/

/-- C1 (counterexample): a "not applicable" answer is *not* equivalent
to an absent cell.  In `rowC3` the PRD Handover parameter is
"not applicable" (Total Score 1.18); in `rowC3Absent`, the same row
except that this cell is absent, the empty-string fallback counts the
parameter's weight in the denominator and the Total Score drops
to 1.0. -/
theorem c1_counterexample :
    normOf rowC3 Param.prdHandover = "not applicable" ∧
    rowC3Absent Param.prdHandover = none ∧
    (∀ p ∈ paramList, p ≠ Param.prdHandover → rowC3Absent p = rowC3 p) ∧
    totalScoreOver paramList rowC3 = .ok (59/50) ∧
    totalScoreOver paramList rowC3Absent = .ok 1 ∧
    (59/50 : ℚ) ≠ 1 := by
  refine ⟨?_, ?_, ?_, ?_, ?_, ?_⟩ <;> with_unfolding_all decide

/-- C1 (amended): a parameter whose normalized value is the
"not applicable" sentinel is recorded as "N/A" and contributes neither
to the accumulated score nor to the weight denominator: the row's Total
Score is identical to the Total Score computed with that parameter
removed from the configured parameter list.  (An absent *cell*, by
contrast, is treated as an unrecognized answer: score 0 with the weight
still counted.) -/
theorem c1_na_excluded (row : Param → Option CellVal) (p : Param)
    (hmem : p ∈ paramList) (hna : normOf row p = "not applicable") :
    (∀ s t, convert_to_score row = .ok (s, t) → (p, "N/A") ∈ s) ∧
    totalScoreOver (removeP p paramList) row = totalScoreOver paramList row := by
  constructor
  · intro s t h
    unfold convert_to_score convertOver at h
    cases hc : convertCore paramList row with
    | error e =>
      rw [hc] at h
      exact absurd h (by simp)
    | ok out =>
      obtain ⟨s2, ts2, tw2⟩ := out
      rw [hc] at h
      simp only [Except.ok.injEq, Prod.mk.injEq] at h
      obtain ⟨h1, -⟩ := h
      rw [← h1]
      exact na_mem_scores paramList row p s2 ts2 tw2 hc hmem hna
  · rw [totalScoreOver_eq_coreTotals, totalScoreOver_eq_coreTotals,
      coreTotals_removeP paramList row p hmem hna]

/-- C1 (witness): the amended statement at the concrete row `rowC3`
and parameter PRD Handover. -/
theorem c1_na_excluded_witness :
    (∀ s t, convert_to_score rowC3 = .ok (s, t) → (Param.prdHandover, "N/A") ∈ s) ∧
    totalScoreOver (removeP Param.prdHandover paramList) rowC3 =
      totalScoreOver paramList rowC3 :=
  c1_na_excluded rowC3 Param.prdHandover (by decide) (by with_unfolding_all decide)

/-- C2: under the default configuration every parameter's weight equals
its maximum category score, and for every row the normalizer accepts,
the Total Score lies in [0, 10]; when every parameter is
"not applicable" (hence the accumulated weight is 0) the Total Score is
exactly 0. -/
theorem c2_total_score_bounds :
    (∀ p ∈ paramList, weights p = paramMax p) ∧
    ∀ (row : Param → Option CellVal) (s : List (Param × String)) (t : ℚ),
      convert_to_score row = .ok (s, t) →
      0 ≤ t ∧ t ≤ 10 ∧ ((∀ p ∈ paramList, normOf row p = "not applicable") → t = 0) := by
  constructor
  · with_unfolding_all decide
  · intro row s t h
    unfold convert_to_score convertOver at h
    cases hc : convertCore paramList row with
    | error e =>
      rw [hc] at h
      exact absurd h (by simp)
    | ok out =>
      obtain ⟨s2, ts2, tw2⟩ := out
      rw [hc] at h
      simp only [Except.ok.injEq, Prod.mk.injEq] at h
      obtain ⟨-, h2⟩ := h
      obtain ⟨hb1, hb2⟩ := convertCore_ok_bounds paramList row s2 ts2 tw2 hc
      obtain ⟨hA, hB⟩ := normalizedTotal_bounds hb1 hb2
      rw [← h2]
      refine ⟨hA, hB, ?_⟩
      intro hna
      obtain ⟨s3, hs3⟩ := convertCore_allNA paramList row hna
      rw [hs3] at hc
      simp only [Except.ok.injEq, Prod.mk.injEq] at hc
      obtain ⟨-, hts, htw⟩ := hc
      rw [← hts, ← htw]
      unfold normalizedTotal
      simp

/-- C2 (witness): the bounds at the concrete row `rowC3`. -/
theorem c2_total_score_bounds_witness :
    0 ≤ (59/50 : ℚ) ∧ (59/50 : ℚ) ≤ 10 ∧
      ((∀ p ∈ paramList, normOf rowC3 p = "not applicable") → (59/50 : ℚ) = 0) :=
  c2_total_score_bounds.2 rowC3
    [(Param.scope, "Fully Covered (1)"), (Param.designReady, "Not Covered (0)"),
     (Param.prdHandover, "N/A"), (Param.reqChanges, " (0)"), (Param.coverage, " (0)"),
     (Param.techDepth, " (0)")]
    (59/50) (by with_unfolding_all decide)

/-- C3: the spec's concrete scenario.  For `rowC3` (Scope
"fully covered", Design Ready "not covered", PRD Handover
"not applicable", the rest unanswered) the accumulators are
`total_score = 1` and `total_weight = 8.5`, and the normalized Total
Score is `round(1 * 10 / 8.5, 2) = 1.18`. -/
theorem c3_concrete_scenario :
    coreTotals paramList rowC3 = .ok (1, 17/2) ∧
    round2 (1 * 10 / (17/2)) = 59/50 ∧
    convert_to_score rowC3 =
      .ok ([(Param.scope, "Fully Covered (1)"), (Param.designReady, "Not Covered (0)"),
            (Param.prdHandover, "N/A"), (Param.reqChanges, " (0)"), (Param.coverage, " (0)"),
            (Param.techDepth, " (0)")], 59/50) := by
  refine ⟨?_, ?_, ?_⟩ <;> with_unfolding_all decide

/-- C9 (counterexample): the normalizer *can* raise.  A non-string cell
value (here the integer 5 for Scope) passes the `str(val)`-based
normalization and lookup but raises `AttributeError` at
`val.title()` when the display value is formatted. -/
theorem c9_counterexample :
    isStrCell (rowNonStr Param.scope) = false ∧
    convert_to_score rowNonStr = .error () := by
  refine ⟨?_, ?_⟩ <;> with_unfolding_all decide

/-- C9 (amended): the normalizer never raises on rows whose cells are
all absent or strings (which the app's `astype(str)` preprocessing
guarantees), returning a score map and a numeric total; and any
unrecognized (malformed) value maps to a zero contribution for its
parameter. -/
theorem c9_never_raises_on_str :
    (∀ row : Param → Option CellVal,
      (∀ p ∈ paramList, isStrCell (row p) = true) →
      ∃ out, convert_to_score row = .ok out) ∧
    (∀ (row : Param → Option CellVal) (p : Param),
      (∀ kv ∈ scoreMap p, kv.1 ≠ normOf row p) → mappedOf row p = 0) := by
  constructor
  · intro row h
    obtain ⟨⟨s2, ts2, tw2⟩, hc⟩ := convertCore_str_ok paramList row h
    refine ⟨(s2, normalizedTotal ts2 tw2), ?_⟩
    unfold convert_to_score convertOver
    rw [hc]
  · intro row p h
    unfold mappedOf lookupD
    cases hf : (scoreMap p).find? (fun kv => kv.1 == normOf row p) with
    | none => rfl
    | some kv =>
      have hmem := List.mem_of_find?_eq_some hf
      have heq := List.find?_some hf
      rw [beq_iff_eq] at heq
      exact absurd heq (h kv hmem)

/-- C9 (witness): the amended statement at the all-absent row and at
Scope of `rowC3Absent` (whose normalized value "fully covered" is a
recognized key, so the unrecognized-value hypothesis is discharged at
PRD Handover instead, where the cell is absent and normalizes to ""). -/
theorem c9_never_raises_on_str_witness :
    (∃ out, convert_to_score (fun _ => none) = .ok out) ∧
    mappedOf rowC3Absent Param.prdHandover = 0 :=
  ⟨c9_never_raises_on_str.1 (fun _ => none) (by decide),
   c9_never_raises_on_str.2 rowC3Absent Param.prdHandover (by with_unfolding_all decide)⟩

end PrdRating

namespace PrdRating

/-! ### Lemmas about the report aggregator -/

lemma firstDedup_mem : ∀ (l : List String) (a : String), a ∈ firstDedup l ↔ a ∈ l := by
  intro l
  induction l with
  | nil => simp [firstDedup]
  | cons b bs ih =>
    intro a
    by_cases hab : a = b
    · subst hab
      simp [firstDedup]
    · simp only [firstDedup, List.mem_cons, List.mem_filter, ih, decide_eq_true_eq]
      constructor
      · rintro (h | ⟨h, -⟩)
        · exact absurd h hab
        · exact Or.inr h
      · rintro (h | h)
        · exact absurd h hab
        · exact Or.inr ⟨h, hab⟩

lemma mem_sortedPrds (data : List ScoredRow) (name : String) :
    name ∈ sortedPrds data ↔ name ∈ data.map (fun r => r.prdName) := by
  unfold sortedPrds
  rw [List.mem_insertionSort, List.mem_insertionSort, firstDedup_mem]

lemma meanQ_isSome_of_mem_sortedPrds (data : List ScoredRow) (name : String)
    (h : name ∈ sortedPrds data) :
    ∃ q, meanQ (groupScores data name) = some q := by
  rw [mem_sortedPrds] at h
  obtain ⟨r, hr, hrn⟩ := List.mem_map.mp h
  have hmem : r ∈ groupRows data name := by
    unfold groupRows
    rw [List.mem_filter]
    exact ⟨hr, by simp [hrn]⟩
  unfold groupScores
  cases hg : groupRows data name with
  | nil => rw [hg] at hmem; exact absurd hmem (List.not_mem_nil r)
  | cons x xs => exact ⟨_, rfl⟩

/-- C4: artifact sections are ordered ascending by group-average Total
Score; in particular artifacts A, B, C with group averages 9.0, 4.0,
7.0 are rendered in the order B, C, A. -/
theorem c4_artifact_order :
    (∀ data : List ScoredRow,
      (sortedPrds data).Pairwise (fun a b => meanD data a ≤ meanD data b)) ∧
    sortedPrds dataABC = ["B", "C", "A"] := by
  constructor
  · intro data
    have hs := List.sorted_insertionSort (lexRel (meanD data) id)
      (List.insertionSort (fun a b : String => a ≤ b)
        (firstDedup (data.map (fun r => r.prdName))))
    unfold sortedPrds
    refine List.Pairwise.imp ?_ hs
    intro a b hab
    rcases hab with h | ⟨h, -⟩
    · exact h.le
    · exact le_of_eq h
  · with_unfolding_all decide

/-- C4 is hypothesis-free, but we record the concrete group means of
the example dataset for reference. -/
theorem c4_artifact_order_means :
    meanD dataABC "A" = 9 ∧ meanD dataABC "B" = 4 ∧ meanD dataABC "C" = 7 := by
  refine ⟨?_, ?_, ?_⟩ <;> with_unfolding_all decide

/-- C5: for every artifact appearing in the report, the group average
exists and the low-score diagnostic note is emitted iff the three-tier
classification of that average is not the "good" tier (light green,
`score >= 8`) — i.e. iff the average is strictly below 8. -/
theorem c5_note_iff_not_good (data : List ScoredRow) (name : String)
    (h : name ∈ sortedPrds data) :
    ∃ q, meanQ (groupScores data name) = some q ∧
      ((noteOf data name).isSome ↔ getColorByScore q ≠ (144, 238, 144)) ∧
      ((noteOf data name).isSome ↔ q < 8) := by
  obtain ⟨q, hq⟩ := meanQ_isSome_of_mem_sortedPrds data name h
  have hnote : noteOf data name =
      if q < 8 then some (lowestParams (groupRows data name)) else none := by
    unfold noteOf
    rw [hq]
  refine ⟨q, hq, ?_, ?_⟩
  · rw [hnote]
    by_cases h8 : q < 8
    · rw [if_pos h8]
      have hc : getColorByScore q ≠ (144, 238, 144) := by
        unfold getColorByScore
        rw [if_neg (not_le.mpr h8)]
        split_ifs <;> decide
      simp [hc]
    · rw [if_neg h8]
      have hc : getColorByScore q = (144, 238, 144) := by
        unfold getColorByScore
        rw [if_pos (not_lt.mp h8)]
      simp [hc, h8]
  · rw [hnote]
    by_cases h8 : q < 8
    · rw [if_pos h8]
      simp [h8]
    · rw [if_neg h8]
      simp [h8]

/-- C5 (witness): artifact "B" of the example dataset (group average
4.0: note emitted, classification red). -/
theorem c5_note_iff_not_good_witness :
    ∃ q, meanQ (groupScores dataABC "B") = some q ∧
      ((noteOf dataABC "B").isSome ↔ getColorByScore q ≠ (144, 238, 144)) ∧
      ((noteOf dataABC "B").isSome ↔ q < 8) :=
  c5_note_iff_not_good dataABC "B" (by with_unfolding_all decide)

end PrdRating

namespace PrdRating

/-! ### Lemmas about the low-score diagnostics -/

lemma lowestParams_length (group : List ScoredRow) : (lowestParams group).length = 3 := by
  unfold lowestParams
  rw [List.length_take, List.length_insertionSort]
  rfl

lemma lowestParams_pairwise (group : List ScoredRow) :
    (lowestParams group).Pairwise (lexRel (ratioOf group) canonIdx) := by
  unfold lowestParams
  exact (List.sorted_insertionSort _ _).sublist (List.take_sublist _ _)

lemma lowestParams_cross (group : List ScoredRow) :
    ∀ q ∈ lowestParams group, ∀ p ∈ paramList, p ∉ lowestParams group →
      lexRel (ratioOf group) canonIdx q p := by
  intro q hq p hp hnp
  have hsorted := List.sorted_insertionSort (lexRel (ratioOf group) canonIdx) paramList
  have hsplit := List.take_append_drop 3 (List.insertionSort (lexRel (ratioOf group) canonIdx) paramList)
  rw [← hsplit] at hsorted
  have hcross := (List.pairwise_append.mp hsorted).2.2
  have hpmem : p ∈ List.insertionSort (lexRel (ratioOf group) canonIdx) paramList :=
    (List.mem_insertionSort _).mpr hp
  rw [← hsplit, List.mem_append] at hpmem
  rcases hpmem with hmem | hmem
  · exact absurd hmem hnp
  · exact hcross q hq p hmem

lemma toNumeric_nonneg : ∀ (l : List Char) (v : ℚ), toNumeric l = some v → 0 ≤ v := by
  intro l v h
  unfold toNumeric at h
  split at h
  · split at h
    · exact absurd h (by simp)
    · simp only [Option.some.injEq] at h
      rw [← h]
      positivity
  · split at h
    · exact absurd h (by simp)
    · simp only [Option.some.injEq] at h
      rw [← h]
      positivity
  · exact absurd h (by simp)

lemma extractNum_nonneg (s : String) (v : ℚ) (h : extractNum s = some v) : 0 ≤ v := by
  unfold extractNum at h
  cases hr : firstRun s.data with
  | none => rw [hr] at h; exact absurd h (by simp)
  | some run =>
    rw [hr] at h
    exact toNumeric_nonneg run v h

lemma meanQ_nonneg (l : List ℚ) (hl : ∀ x ∈ l, 0 ≤ x) (v : ℚ) (h : meanQ l = some v) :
    0 ≤ v := by
  unfold meanQ at h
  cases l with
  | nil => exact absurd h (by simp)
  | cons x xs =>
    simp only [Option.some.injEq] at h
    rw [← h]
    apply div_nonneg (List.sum_nonneg hl)
    positivity

lemma extractMean_nonneg (cells : List String) (v : ℚ) (h : extractMean cells = some v) :
    0 ≤ v := by
  unfold extractMean at h
  refine meanQ_nonneg _ ?_ v h
  intro x hx
  obtain ⟨c, -, hc⟩ := List.mem_filterMap.mp hx
  exact extractNum_nonneg c x hc

lemma paramMax_nonneg (p : Param) : 0 ≤ paramMax p := by
  cases p <;> with_unfolding_all decide

lemma ratioOf_nonneg (group : List ScoredRow) (p : Param) : 0 ≤ ratioOf group p := by
  unfold ratioOf
  apply div_nonneg
  · cases h : extractMean (group.map (fun r => r.cells p)) with
    | none => simp
    | some v =>
      simp only [Option.getD_some]
      exact extractMean_nonneg _ v h
  · by_cases h : paramMax p = 0
    · rw [if_pos h]
      norm_num
    · rw [if_neg h]
      exact paramMax_nonneg p

lemma ratioOf_of_extract_none (group : List ScoredRow) (p : Param)
    (h : extractMean (group.map (fun r => r.cells p)) = none) : ratioOf group p = 0 := by
  unfold ratioOf
  rw [h]
  simp

end PrdRating

namespace PrdRating

/-! ### Claims C6, C7, C8, C10: diagnostics, average rows, empty input -/

lemma meanQ_eq_none (l : List ℚ) : meanQ l = none ↔ l = [] := by
  cases l <;> simp [meanQ]

/-- C6 (counterexample): the note does *not* rank parameters by the
mean of their numeric scores.  In the one-rater group of `scoredX`
(produced by the normalizer from `rowX`), Req. changes was answered
"changed 1 time" (score 0.5 of max 2, true relative score 0.25, the
canonical-order tiebreak winner at the minimum), but the regex
`([\d.]+)` extracts the digit `1` of the *label*, giving it extracted
relative score 0.5; the emitted note therefore names Coverage before
Req. changes, while the spec-side ranking names Req. changes first. -/
theorem c6_counterexample :
    convert_to_score rowX = .ok (paramList.map (fun p => (p, scoredX.cells p)), 7) ∧
    extractNum (scoredX.cells Param.reqChanges) = some 1 ∧
    specRelScore [rowX] Param.reqChanges = 1/4 ∧
    ratioOf [scoredX] Param.reqChanges = 1/2 ∧
    specLowestParams [rowX] = [Param.reqChanges, Param.coverage, Param.scope] ∧
    noteOf [scoredX] "X" = some [Param.coverage, Param.reqChanges, Param.scope] ∧
    ([Param.coverage, Param.reqChanges, Param.scope] : List Param) ≠
      [Param.reqChanges, Param.coverage, Param.scope] := by
  refine ⟨?_, ?_, ?_, ?_, ?_, ?_, ?_⟩ <;> with_unfolding_all decide

/-- C6 (amended): the note names exactly three parameters, listed in
ascending order of the *extracted* relative score (first `[\d.]+` run
of the display cell, averaged, divided by the parameter's max category
score), ties broken by canonical parameter order; every unnamed
parameter ranks at or after every named one.  In the concrete group
`dataP`, Coverage (relative score 0.2) is named before Scope (0.5). -/
theorem c6_note_order :
    (∀ group : List ScoredRow,
      (lowestParams group).length = 3 ∧
      (lowestParams group).Pairwise (lexRel (ratioOf group) canonIdx) ∧
      (∀ q ∈ lowestParams group, ∀ p ∈ paramList, p ∉ lowestParams group →
        lexRel (ratioOf group) canonIdx q p)) ∧
    (ratioOf dataP Param.coverage = 1/5 ∧ ratioOf dataP Param.scope = 1/2 ∧
      noteOf dataP "P" = some [Param.coverage, Param.scope, Param.designReady]) := by
  constructor
  · intro group
    exact ⟨lowestParams_length group, lowestParams_pairwise group, lowestParams_cross group⟩
  · refine ⟨?_, ?_, ?_⟩ <;> with_unfolding_all decide

/-- C6 (witness): minimality applied in the group of `scoredX`:
Coverage is named, Design Ready is not, and Coverage ranks before it. -/
theorem c6_note_order_witness :
    lexRel (ratioOf [scoredX]) canonIdx Param.coverage Param.designReady :=
  (c6_note_order.1 [scoredX]).2.2 Param.coverage (by with_unfolding_all decide)
    Param.designReady (by decide) (by with_unfolding_all decide)

/-- C7 (counterexample): the average row does *not* show the mean of
the column's numeric scores.  In the one-rater group of `scoredY`
(produced by the normalizer from `rowY`), the Req. changes score is 0.5
("Changed 1 Time (0.5)"), but the average cell shows 1 — the digit
extracted from the label. -/
theorem c7_counterexample :
    convert_to_score rowY = .ok (paramList.map (fun p => (p, scoredY.cells p)), 5/2) ∧
    avgCellParam [scoredY] Param.reqChanges = some 1 ∧
    specMeanScore [rowY] Param.reqChanges = some (1/2) ∧
    (some (1 : ℚ) ≠ some (1/2 : ℚ)) := by
  refine ⟨?_, ?_, ?_, ?_⟩ <;> with_unfolding_all decide

/-- C7 (amended): an average-row parameter cell is blank iff no cell of
the column yields an extractable number; "N/A" cells extract nothing
(and are thus ignored); and for every configured category whose label
contains no digit (all except "changed 1 time"), extraction recovers
exactly the mapped numeric score from the display value. -/
theorem c7_avg_row_cells :
    (∀ (group : List ScoredRow) (p : Param),
      avgCellParam group p = none ↔
        ∀ c ∈ group.map (fun r => r.cells p), extractNum c = none) ∧
    extractNum "N/A" = none ∧
    (∀ p ∈ paramList, ∀ kv ∈ scoreMap p, kv.1 ≠ "changed 1 time" →
      extractNum (displayOf (pyTitleStr kv.1) kv.2) = some kv.2) := by
  refine ⟨?_, ?_, ?_⟩
  · intro group p
    unfold avgCellParam extractMean
    rw [meanQ_eq_none]
    exact List.filterMap_eq_nil_iff
  · with_unfolding_all decide
  · with_unfolding_all decide

/-- C7 (witness): the display value of a digit-free label round-trips:
extraction recovers score 1 from "Fully Covered (1)". -/
theorem c7_avg_row_cells_witness :
    extractNum (displayOf (pyTitleStr "fully covered") 1) = some 1 :=
  c7_avg_row_cells.2.2 Param.scope (by decide) ("fully covered", 1)
    (by with_unfolding_all decide) (by decide)

/-- C8 (counterexample): on the empty dataset `data['Total Score'].mean()`
is NaN (modelled `none`), not 0: the report renders "nan" as the
overall average. -/
theorem c8_counterexample :
    overallAvg ([] : List ScoredRow) = none ∧
    overallAvg ([] : List ScoredRow) ≠ some 0 := by
  refine ⟨rfl, ?_⟩
  simp [overallAvg, meanQ]

/-- C8 (amended): report generation on the empty dataset is total — it
produces a report with zero artifact sections and no diagnostic notes —
but the overall average Total Score is NaN (undefined), not 0. -/
theorem c8_empty_dataset :
    overallAvg ([] : List ScoredRow) = none ∧
    sortedPrds ([] : List ScoredRow) = [] ∧
    ∀ name, noteOf ([] : List ScoredRow) name = none := by
  exact ⟨rfl, rfl, fun name => rfl⟩

/-- C10 (counterexample): an unrated (all-"N/A") parameter column is
*not* always named in the note.  In the group of `scoredZ` (produced by
the normalizer from `rowZ`) four columns are all-"N/A"; all four get
relative score 0.0, but `top_k = 3` truncation names only the first
three in canonical order — Req. changes is unrated yet unnamed. -/
theorem c10_counterexample :
    convert_to_score rowZ = .ok (paramList.map (fun p => (p, scoredZ.cells p)), 25/4) ∧
    extractMean ([scoredZ].map (fun r => r.cells Param.reqChanges)) = none ∧
    ratioOf [scoredZ] Param.reqChanges = 0 ∧
    noteOf [scoredZ] "Z" = some [Param.scope, Param.designReady, Param.prdHandover] ∧
    Param.reqChanges ∉ [Param.scope, Param.designReady, Param.prdHandover] := by
  refine ⟨?_, ?_, ?_, ?_, ?_⟩ <;> with_unfolding_all decide

/-- C10 (amended): a parameter column from which no numeric value can
be extracted (e.g. every rater marked it "N/A") gets relative score
0.0; it ranks ahead of (or ties) every parameter, so whenever any
positively-scored parameter is named the unrated one is named too, and
it is always named when at most three parameters have relative score 0.
With four or more zero-score parameters, `top_k = 3` truncation can
drop it (see the counterexample). -/
theorem c10_unrated_param (group : List ScoredRow) (p : Param) (hp : p ∈ paramList)
    (hnone : extractMean (group.map (fun r => r.cells p)) = none) :
    ratioOf group p = 0 ∧
    (∀ q ∈ paramList, 0 < ratioOf group q → q ∈ lowestParams group →
      p ∈ lowestParams group) ∧
    ((paramList.filter (fun q => ratioOf group q = 0)).length ≤ 3 →
      p ∈ lowestParams group) := by
  have h0 : ratioOf group p = 0 := ratioOf_of_extract_none group p hnone
  refine ⟨h0, ?_, ?_⟩
  · intro q hq hqpos hqmem
    by_contra hnp
    have hcross := lowestParams_cross group q hqmem p hp hnp
    rcases hcross with h | ⟨h, -⟩
    · rw [h0] at h
      exact absurd (lt_trans hqpos h) (lt_irrefl 0)
    · rw [h0] at h
      exact absurd h (ne_of_gt hqpos)
  · intro hcount
    by_contra hnp
    have htake0 : ∀ a ∈ lowestParams group, ratioOf group a = 0 := by
      intro a ha
      have hcross := lowestParams_cross group a ha p hp hnp
      rcases hcross with h | ⟨h, -⟩
      · rw [h0] at h
        exact absurd h (not_lt.mpr (ratioOf_nonneg group a))
      · rw [h, h0]
    have hperm : List.Perm (List.insertionSort (lexRel (ratioOf group) canonIdx) paramList)
        paramList :=
      List.perm_insertionSort _ _
    have hsplit := List.take_append_drop 3
      (List.insertionSort (lexRel (ratioOf group) canonIdx) paramList)
    have hpdrop : p ∈ (List.insertionSort (lexRel (ratioOf group) canonIdx) paramList).drop 3 := by
      have hps : p ∈ List.insertionSort (lexRel (ratioOf group) canonIdx) paramList :=
        (List.mem_insertionSort _).mpr hp
      rw [← hsplit, List.mem_append] at hps
      rcases hps with h | h
      · exact absurd h hnp
      · exact h
    set z : Param → Bool := fun q => decide (ratioOf group q = 0) with hz
    have hcp : List.countP z paramList =
        List.countP z ((List.insertionSort (lexRel (ratioOf group) canonIdx) paramList).take 3) +
        List.countP z ((List.insertionSort (lexRel (ratioOf group) canonIdx) paramList).drop 3) := by
      rw [← List.countP_append, hsplit]
      exact (hperm.countP_eq z).symm
    have htake3 : List.countP z
        ((List.insertionSort (lexRel (ratioOf group) canonIdx) paramList).take 3) = 3 := by
      have hlen : ((List.insertionSort (lexRel (ratioOf group) canonIdx) paramList).take 3).length = 3 :=
        lowestParams_length group
      rw [List.countP_eq_length.mpr, hlen]
      intro a ha
      rw [hz]
      exact decide_eq_true (htake0 a ha)
    have hdrop1 : 0 < List.countP z
        ((List.insertionSort (lexRel (ratioOf group) canonIdx) paramList).drop 3) := by
      rw [List.countP_pos_iff]
      exact ⟨p, hpdrop, decide_eq_true h0⟩
    have hfl : (paramList.filter z).length = List.countP z paramList :=
      (List.countP_eq_length_filter z paramList).symm
    rw [hfl] at hcount
    omega

/-- C10 (witness): the amended statement at the group of `scoredZ` and
its unrated Req. changes column. -/
theorem c10_unrated_param_witness :
    ratioOf [scoredZ] Param.reqChanges = 0 ∧
    (∀ q ∈ paramList, 0 < ratioOf [scoredZ] q → q ∈ lowestParams [scoredZ] →
      Param.reqChanges ∈ lowestParams [scoredZ]) ∧
    ((paramList.filter (fun q => ratioOf [scoredZ] q = 0)).length ≤ 3 →
      Param.reqChanges ∈ lowestParams [scoredZ]) :=
  c10_unrated_param [scoredZ] Param.reqChanges (by decide) (by with_unfolding_all decide)

end PrdRating
